import Mathlib

/-!
Shallow embedding of the connection registry / broadcast / heartbeat core of
the script-distribution relay (src/client_manager.rs, src/handlers.rs, and the
monolithic snapshot src/main.rs).

Modelling choices:
* `usize` identifiers become `Nat`.
* `HashSet<usize>` becomes a `List Nat` used as a set (`setInsert` is a no-op
  on a present element, `setRemove` drops every occurrence); `HashMap<K, V>`
  becomes an association list with `mapInsert` (replace-or-prepend, the
  semantics of `HashMap::insert`), `mapRemove` and `mapLookup`.
* A `tokio::sync::mpsc::UnboundedSender<Message>` is abstracted by a `Bool`
  recording whether `sender.send(..)` returns `Ok` (the receiver is alive).
* `std::time::Instant` is a `Nat` counting milliseconds; `Instant::now()`
  becomes an explicit `now` argument threaded to the operations that read the
  clock; `now.duration_since(t).as_secs()` is the truncating `(now - t) / 1000`
  (Rust `duration_since` saturates at zero, matching `Nat` subtraction).
* Each `async fn` taking `&self` under the mutexes becomes a pure function from
  the registry state to (result, next state).
-/

abbrev ClientId := Nat

/-- `HashSet::insert`: adding an element already present changes nothing. -/
def setInsert (s : List ClientId) (id : ClientId) : List ClientId :=
  if id ∈ s then s else id :: s

/-- `HashSet::remove`. -/
def setRemove (s : List ClientId) (id : ClientId) : List ClientId :=
  s.filter (fun a => a ≠ id)

/-- `HashMap::insert`: replaces the value when the key is present. -/
def mapInsert {α : Type} (m : List (ClientId × α)) (k : ClientId) (v : α) :
    List (ClientId × α) :=
  match m with
  | [] => [(k, v)]
  | p :: rest => if p.1 = k then (k, v) :: rest else p :: mapInsert rest k v

/-- `HashMap::remove`. -/
def mapRemove {α : Type} (m : List (ClientId × α)) (k : ClientId) :
    List (ClientId × α) :=
  m.filter (fun p => p.1 ≠ k)

/-- `HashMap::get` / key lookup. -/
def mapLookup {α : Type} (m : List (ClientId × α)) (k : ClientId) : Option α :=
  match m with
  | [] => none
  | p :: rest => if p.1 = k then some p.2 else mapLookup rest k

/-- `HashMap::contains_key`. -/
def keyMem {α : Type} (m : List (ClientId × α)) (k : ClientId) : Bool :=
  m.any (fun p => p.1 == k)

/-- The association list represents a map: keys are pairwise distinct. -/
def keysNodup {α : Type} (m : List (ClientId × α)) : Prop :=
  (m.map Prod.fst).Nodup

/-- State of `ClientManager` (src/client_manager.rs): the connected set, the
identifier counter, the per-client outbound channels (abstracted to whether a
send succeeds), and the per-client last-pong `Instant` in milliseconds. -/
structure ClientManager where
  clients : List ClientId
  next_id : ClientId
  senders : List (ClientId × Bool)
  last_pong : List (ClientId × Nat)
deriving DecidableEq, Repr

/-- `ClientManager::new`. -/
def ClientManager.new : ClientManager :=
  { clients := [], next_id := 0, senders := [], last_pong := [] }

/-- `ClientManager::register`: allocate the next id, insert it into the
connected set, store the sender, initialise the last-pong timestamp to now. -/
def ClientManager.register (cm : ClientManager) (sender : Bool) (now : Nat) :
    ClientId × ClientManager :=
  let id := cm.next_id
  (id,
    { clients := setInsert cm.clients id
      next_id := id + 1
      senders := mapInsert cm.senders id sender
      last_pong := mapInsert cm.last_pong id now })

/-- `ClientManager::unregister`: remove the id from all three structures. -/
def ClientManager.unregister (cm : ClientManager) (id : ClientId) :
    ClientManager :=
  { cm with
    clients := setRemove cm.clients id
    senders := mapRemove cm.senders id
    last_pong := mapRemove cm.last_pong id }

/-- The send loop of `broadcast`: walk the senders in order, counting
successful sends and collecting the ids whose send failed. -/
def sendAll (senders : List (ClientId × Bool)) : Nat × List ClientId :=
  senders.foldl
    (fun acc p => if p.2 then (acc.1 + 1, acc.2) else (acc.1, acc.2 ++ [p.1]))
    (0, [])

/-- `ClientManager::broadcast` (src/client_manager.rs lines 72-104): snapshot
the senders, return `(0, 0)` when none, otherwise send to each, then remove
every failed id from `clients` and `senders` (the source does not touch
`last_pong` here). -/
def ClientManager.broadcast (cm : ClientManager) (_message : String) :
    (Nat × Nat) × ClientManager :=
  let total := cm.senders.length
  if total = 0 then ((0, 0), cm)
  else
    let sent := sendAll cm.senders
    let successful := sent.1
    let failed_ids := sent.2
    if failed_ids.isEmpty then ((successful, total), cm)
    else
      ((successful, total),
        { cm with
          clients := failed_ids.foldl setRemove cm.clients
          senders := failed_ids.foldl mapRemove cm.senders })

/-- `ClientManager::client_count`. -/
def ClientManager.client_count (cm : ClientManager) : Nat :=
  cm.clients.length

/-- `ClientManager::update_pong` (src/client_manager.rs lines 112-115): the
source performs an unconditional `HashMap::insert` of `Instant::now()`. -/
def ClientManager.update_pong (cm : ClientManager) (id : ClientId) (now : Nat) :
    ClientManager :=
  { cm with last_pong := mapInsert cm.last_pong id now }

/-- `ClientManager::send_ping`: count the clients whose channel accepts the
fixed ping message; the registry state is not mutated. -/
def ClientManager.send_ping (cm : ClientManager) : Nat × ClientManager :=
  let total := cm.senders.length
  if total = 0 then (0, cm)
  else
    (cm.senders.foldl (fun acc p => if p.2 then acc + 1 else acc) 0, cm)

/-- `ClientManager::check_timeouts` (src/client_manager.rs lines 143-155):
collect every id whose `now.duration_since(last_time).as_secs()` strictly
exceeds `timeout_secs`; with millisecond instants `as_secs` is the truncating
division by 1000. -/
def ClientManager.check_timeouts (cm : ClientManager) (timeout_secs : Nat)
    (now : Nat) : List ClientId :=
  cm.last_pong.foldl
    (fun acc p => if (now - p.2) / 1000 > timeout_secs then acc ++ [p.1] else acc)
    []

/-- `ClientManager::disconnect_clients` (src/client_manager.rs lines 158-176):
remove each listed id from all three structures. -/
def ClientManager.disconnect_clients (cm : ClientManager)
    (client_ids : List ClientId) : ClientManager :=
  if client_ids.isEmpty then cm
  else
    client_ids.foldl
      (fun c id =>
        { c with
          clients := setRemove c.clients id
          senders := mapRemove c.senders id
          last_pong := mapRemove c.last_pong id })
      cm

/-!
The `/execute` HTTP handler (src/handlers.rs lines 200-244): the derivation of
the caller-visible response from the `(successful, total)` tally returned by
`broadcast`.  Quote characters that the source format strings place around the
filename are not reproduced in the message texts.
-/

/-- `ExecuteResponse` (src/types.rs): the JSON body of every `/execute`
reply. -/
structure ExecuteResponse where
  success : Bool
  message : Option String
  error : Option String
  clients_reached : Option Nat
  total_clients : Option Nat
deriving DecidableEq, Repr

/-- The tally-dependent tail of `handle_execute`: builds the response body and
the HTTP status code (503 SERVICE_UNAVAILABLE, 200 OK, 207 MULTI_STATUS) from
`(successful, total)`. -/
def executeReply (filename : String) (successful total : Nat) :
    ExecuteResponse × Nat :=
  if total = 0 then
    ({ success := false, message := none,
       error := some "No clients connected",
       clients_reached := some 0, total_clients := some 0 }, 503)
  else if successful = total then
    ({ success := true,
       message := some ("Script " ++ filename ++ " sent to all connected clients"),
       error := none,
       clients_reached := some successful, total_clients := some total }, 200)
  else
    ({ success := false, message := none,
       error := some ("Script " ++ filename ++ " only reached "
         ++ toString successful ++ "/" ++ toString total ++ " clients"),
       clients_reached := some successful, total_clients := some total }, 207)

/-- The four tally-derived outcome classes enumerated by the specification. -/
inductive ExecOutcome where
  | unavailable
  | fullSuccess
  | partialDelivery
  | totalFailure
deriving DecidableEq, Repr

/-- The class the specification assigns to a `(delivered, total)` tally. -/
def outcomeClass (delivered total : Nat) : ExecOutcome :=
  if total = 0 then .unavailable
  else if delivered = total then .fullSuccess
  else if 0 < delivered then .partialDelivery
  else .totalFailure

/-- How a caller can read the outcome class back off the reply it received:
status 503 is unavailable, 200 is success, and a 207 is total failure exactly
when the reported `clients_reached` is zero. -/
def recoverOutcome (r : ExecuteResponse × Nat) : ExecOutcome :=
  if r.2 = 503 then .unavailable
  else if r.2 = 200 then .fullSuccess
  else if r.1.clients_reached = some 0 then .totalFailure
  else .partialDelivery

/-!
The monolithic snapshot (src/main.rs lines 52-137) duplicates the client
manager without the heartbeat fields: its `ClientManager` has only the
connected set, the id counter and the senders map, and its `broadcast`
(lines 100-132) repeats the send loop and the failed-id removal.
-/

namespace MainSnapshot

/-- `ClientManager` of src/main.rs: no `last_pong` map. -/
structure ClientManager where
  clients : List ClientId
  next_id : ClientId
  senders : List (ClientId × Bool)
deriving DecidableEq, Repr

/-- The send loop of the snapshot broadcast (duplicated in the source). -/
def sendAll (senders : List (ClientId × Bool)) : Nat × List ClientId :=
  senders.foldl
    (fun acc p => if p.2 then (acc.1 + 1, acc.2) else (acc.1, acc.2 ++ [p.1]))
    (0, [])

/-- `ClientManager::broadcast` of src/main.rs lines 100-132. -/
def ClientManager.broadcast (cm : ClientManager) (_message : String) :
    (Nat × Nat) × ClientManager :=
  let total := cm.senders.length
  if total = 0 then ((0, 0), cm)
  else
    let sent := sendAll cm.senders
    let successful := sent.1
    let failed_ids := sent.2
    if failed_ids.isEmpty then ((successful, total), cm)
    else
      ((successful, total),
        { cm with
          clients := failed_ids.foldl setRemove cm.clients
          senders := failed_ids.foldl mapRemove cm.senders })

end MainSnapshot

/-!
Operations and reachable registry states.  The gateway calls `register` on
connect, `update_pong` on a pong frame (possibly racing an eviction, so the id
is arbitrary), and `unregister` on disconnect; the `/execute` path calls
`broadcast`; the heartbeat monitor calls `send_ping` and, each scan tick,
`disconnect_clients` on the batch returned by `check_timeouts`.
-/

/-- Registry states reachable in one process lifetime. -/
inductive Reachable : ClientManager → Prop where
  | init : Reachable ClientManager.new
  | register {cm} (sender : Bool) (now : Nat) :
      Reachable cm → Reachable (cm.register sender now).2
  | unregister {cm} (id : ClientId) :
      Reachable cm → Reachable (cm.unregister id)
  | broadcast {cm} (msg : String) :
      Reachable cm → Reachable (cm.broadcast msg).2
  | update_pong {cm} (id : ClientId) (now : Nat) :
      Reachable cm → Reachable (cm.update_pong id now)
  | send_ping {cm} :
      Reachable cm → Reachable (cm.send_ping).2
  | evict {cm} (timeout_secs : Nat) (now : Nat) :
      Reachable cm →
      Reachable (cm.disconnect_clients (cm.check_timeouts timeout_secs now))

/-! Helper lemmas about the set / map model. -/

theorem mem_setInsert (s : List ClientId) (id a : ClientId) :
    a ∈ setInsert s id ↔ a = id ∨ a ∈ s := by
  unfold setInsert
  split
  · constructor
    · exact fun h => Or.inr h
    · rintro (rfl | h)
      · assumption
      · assumption
  · simp [List.mem_cons]

theorem mem_setRemove (s : List ClientId) (id a : ClientId) :
    a ∈ setRemove s id ↔ a ∈ s ∧ a ≠ id := by
  simp [setRemove, List.mem_filter]

theorem mem_foldl_setRemove (ids : List ClientId) (s : List ClientId)
    (a : ClientId) :
    a ∈ ids.foldl setRemove s ↔ a ∈ s ∧ a ∉ ids := by
  induction ids generalizing s with
  | nil => simp
  | cons i rest ih =>
      simp only [List.foldl_cons, ih, mem_setRemove, List.mem_cons]
      tauto

theorem mapLookup_cons {α : Type} (p : ClientId × α)
    (rest : List (ClientId × α)) (k : ClientId) :
    mapLookup (p :: rest) k = if p.1 = k then some p.2 else mapLookup rest k :=
  rfl

theorem mapInsert_cons {α : Type} (p : ClientId × α)
    (rest : List (ClientId × α)) (k : ClientId) (v : α) :
    mapInsert (p :: rest) k v
      = if p.1 = k then (k, v) :: rest else p :: mapInsert rest k v :=
  rfl

theorem mapRemove_cons {α : Type} (p : ClientId × α)
    (rest : List (ClientId × α)) (k : ClientId) :
    mapRemove (p :: rest) k
      = if p.1 = k then mapRemove rest k else p :: mapRemove rest k := by
  by_cases hp : p.1 = k <;> simp [mapRemove, List.filter_cons, hp]

theorem mapLookup_mapInsert_self {α : Type} (m : List (ClientId × α))
    (k : ClientId) (v : α) :
    mapLookup (mapInsert m k v) k = some v := by
  induction m with
  | nil => simp [mapInsert, mapLookup]
  | cons p rest ih =>
      rw [mapInsert_cons]
      by_cases hp : p.1 = k
      · rw [if_pos hp, mapLookup_cons, if_pos rfl]
      · rw [if_neg hp, mapLookup_cons, if_neg hp, ih]

theorem mapLookup_mapInsert_ne {α : Type} (m : List (ClientId × α))
    (k a : ClientId) (v : α) (h : a ≠ k) :
    mapLookup (mapInsert m k v) a = mapLookup m a := by
  have hk : ¬ k = a := fun hh => h hh.symm
  induction m with
  | nil =>
      show mapLookup [(k, v)] a = mapLookup [] a
      rw [mapLookup_cons, if_neg hk]
  | cons p rest ih =>
      rw [mapInsert_cons]
      by_cases hp : p.1 = k
      · have hpa : ¬ p.1 = a := by
          rw [hp]
          exact hk
        rw [if_pos hp, mapLookup_cons, if_neg hk, mapLookup_cons, if_neg hpa]
      · rw [if_neg hp, mapLookup_cons, mapLookup_cons, ih]

theorem mapLookup_mapRemove_self {α : Type} (m : List (ClientId × α))
    (k : ClientId) :
    mapLookup (mapRemove m k) k = none := by
  induction m with
  | nil => rfl
  | cons p rest ih =>
      rw [mapRemove_cons]
      by_cases hp : p.1 = k
      · rw [if_pos hp]
        exact ih
      · rw [if_neg hp, mapLookup_cons, if_neg hp]
        exact ih

theorem mapLookup_mapRemove_ne {α : Type} (m : List (ClientId × α))
    (k a : ClientId) (h : a ≠ k) :
    mapLookup (mapRemove m k) a = mapLookup m a := by
  induction m with
  | nil => rfl
  | cons p rest ih =>
      rw [mapRemove_cons]
      by_cases hp : p.1 = k
      · have hpa : ¬ p.1 = a := by
          rw [hp]
          exact fun hh => h hh.symm
        rw [if_pos hp, mapLookup_cons, if_neg hpa]
        exact ih
      · rw [if_neg hp, mapLookup_cons, mapLookup_cons, ih]

theorem keyMem_eq_isSome {α : Type} (m : List (ClientId × α)) (a : ClientId) :
    keyMem m a = (mapLookup m a).isSome := by
  induction m with
  | nil => rfl
  | cons p rest ih =>
      simp only [keyMem, List.any_cons, mapLookup] at ih ⊢
      by_cases hp : p.1 = a
      · simp [hp]
      · simp [hp, ih]

theorem keyMem_mapInsert {α : Type} (m : List (ClientId × α)) (k a : ClientId)
    (v : α) :
    keyMem (mapInsert m k v) a = true ↔ a = k ∨ keyMem m a = true := by
  by_cases h : a = k
  · subst h
    simp [keyMem_eq_isSome, mapLookup_mapInsert_self]
  · simp [keyMem_eq_isSome, mapLookup_mapInsert_ne m k a v h, h]

theorem keyMem_mapRemove {α : Type} (m : List (ClientId × α)) (k a : ClientId) :
    keyMem (mapRemove m k) a = true ↔ keyMem m a = true ∧ a ≠ k := by
  by_cases h : a = k
  · subst h
    simp [keyMem_eq_isSome, mapLookup_mapRemove_self]
  · simp [keyMem_eq_isSome, mapLookup_mapRemove_ne m k a h, h]

theorem keyMem_foldl_mapRemove {α : Type} (ids : List ClientId)
    (m : List (ClientId × α)) (a : ClientId) :
    keyMem (ids.foldl mapRemove m) a = true ↔ keyMem m a = true ∧ a ∉ ids := by
  induction ids generalizing m with
  | nil => simp
  | cons i rest ih =>
      simp only [List.foldl_cons, ih, keyMem_mapRemove, List.mem_cons]
      tauto

theorem mapLookup_mem {α : Type} (m : List (ClientId × α)) (k : ClientId)
    (v : α) (h : mapLookup m k = some v) : (k, v) ∈ m := by
  induction m with
  | nil => simp [mapLookup] at h
  | cons p rest ih =>
      obtain ⟨a, b⟩ := p
      rw [mapLookup_cons] at h
      by_cases hp : (a, b).1 = k
      · rw [if_pos hp] at h
        injection h with hv
        subst hv
        simp only at hp
        subst hp
        exact List.mem_cons_self _ _
      · rw [if_neg hp] at h
        exact List.mem_cons_of_mem _ (ih h)

theorem mem_iff_mapLookup_of_nodup {α : Type} (m : List (ClientId × α))
    (k : ClientId) (v : α) (h : keysNodup m) :
    (k, v) ∈ m ↔ mapLookup m k = some v := by
  induction m with
  | nil => simp [mapLookup]
  | cons p rest ih =>
      obtain ⟨a, b⟩ := p
      simp only [keysNodup, List.map_cons, List.nodup_cons] at h
      rw [mapLookup_cons]
      by_cases hp : a = k
      · subst hp
        rw [if_pos (show (a, b).1 = a from rfl)]
        constructor
        · intro hm
          rcases List.mem_cons.mp hm with heq | hm2
          · rw [congrArg Prod.snd heq.symm]
          · exact absurd (List.mem_map_of_mem Prod.fst hm2) (by simpa using h.1)
        · intro hl
          injection hl with hv
          subst hv
          exact List.mem_cons_self _ _
      · rw [if_neg (show ¬ (a, b).1 = k from hp)]
        rw [← ih h.2]
        constructor
        · intro hm
          rcases List.mem_cons.mp hm with heq | hm2
          · exact absurd (congrArg Prod.fst heq).symm hp
          · exact hm2
        · exact fun hm => List.mem_cons_of_mem _ hm
/-! Characterizations of the registry operations. -/

theorem sendAll_go (l : List (ClientId × Bool)) (n : Nat) (acc : List ClientId) :
    l.foldl
      (fun acc p => if p.2 then (acc.1 + 1, acc.2) else (acc.1, acc.2 ++ [p.1]))
      (n, acc)
    = (n + (l.filter (fun p => p.2)).length,
       acc ++ (l.filter (fun p => !p.2)).map Prod.fst) := by
  induction l generalizing n acc with
  | nil => simp
  | cons p rest ih =>
      by_cases hp : p.2 = true
      · rw [List.foldl_cons, if_pos hp, ih]
        simp only [List.filter_cons, hp, Bool.not_true, Prod.mk.injEq]
        constructor
        · simp
          omega
        · simp
      · rw [List.foldl_cons, if_neg hp, ih]
        simp only [Bool.not_eq_true] at hp
        simp only [List.filter_cons, hp, Bool.not_false, Prod.mk.injEq]
        constructor
        · simp
        · simp [List.append_assoc]

theorem sendAll_eq (l : List (ClientId × Bool)) :
    sendAll l = ((l.filter (fun p => p.2)).length,
                 (l.filter (fun p => !p.2)).map Prod.fst) := by
  unfold sendAll
  rw [sendAll_go]
  simp

/-- The ids whose send fails during a broadcast over `senders`. -/
def failedIds (senders : List (ClientId × Bool)) : List ClientId :=
  (senders.filter (fun p => !p.2)).map Prod.fst

theorem broadcast_eq (cm : ClientManager) (msg : String) :
    cm.broadcast msg
      = (((cm.senders.filter (fun p => p.2)).length, cm.senders.length),
         { cm with
           clients := (failedIds cm.senders).foldl setRemove cm.clients
           senders := (failedIds cm.senders).foldl mapRemove cm.senders }) := by
  obtain ⟨cs, ni, ss, lp⟩ := cm
  unfold ClientManager.broadcast
  by_cases h0 : ss.length = 0
  · rw [List.length_eq_zero] at h0
    subst h0
    simp [failedIds]
  · simp only [if_neg h0, sendAll_eq, failedIds]
    by_cases hf : ((ss.filter (fun p => !p.2)).map Prod.fst).isEmpty
    · rw [List.isEmpty_iff] at hf
      simp [hf]
    · simp [hf]

theorem disconnect_foldl (ids : List ClientId) (cm : ClientManager) :
    ids.foldl
      (fun c id =>
        { c with
          clients := setRemove c.clients id
          senders := mapRemove c.senders id
          last_pong := mapRemove c.last_pong id })
      cm
    = { cm with
        clients := ids.foldl setRemove cm.clients
        senders := ids.foldl mapRemove cm.senders
        last_pong := ids.foldl mapRemove cm.last_pong } := by
  induction ids generalizing cm with
  | nil => rfl
  | cons i rest ih => simp only [List.foldl_cons, ih]

theorem disconnect_clients_eq (cm : ClientManager) (ids : List ClientId) :
    cm.disconnect_clients ids
      = { cm with
          clients := ids.foldl setRemove cm.clients
          senders := ids.foldl mapRemove cm.senders
          last_pong := ids.foldl mapRemove cm.last_pong } := by
  unfold ClientManager.disconnect_clients
  by_cases h : ids.isEmpty
  · rw [List.isEmpty_iff] at h
    subst h
    rfl
  · rw [if_neg (by simp [h]), disconnect_foldl]

theorem foldl_collect {α : Type} (l : List (ClientId × α))
    (cond : (ClientId × α) → Prop) [DecidablePred cond] (acc : List ClientId) :
    l.foldl (fun acc p => if cond p then acc ++ [p.1] else acc) acc
      = acc ++ (l.filter (fun p => decide (cond p))).map Prod.fst := by
  induction l generalizing acc with
  | nil => simp
  | cons p rest ih =>
      by_cases hp : cond p
      · rw [List.foldl_cons, if_pos hp, ih, List.filter_cons]
        simp [hp, List.append_assoc]
      · rw [List.foldl_cons, if_neg hp, ih, List.filter_cons]
        simp [hp]

theorem check_timeouts_eq (cm : ClientManager) (timeout_secs now : Nat) :
    cm.check_timeouts timeout_secs now
      = (cm.last_pong.filter
          (fun p => (now - p.2) / 1000 > timeout_secs)).map Prod.fst := by
  unfold ClientManager.check_timeouts
  rw [foldl_collect cm.last_pong (fun p => (now - p.2) / 1000 > timeout_secs) []]
  simp

theorem send_ping_state (cm : ClientManager) : (cm.send_ping).2 = cm := by
  unfold ClientManager.send_ping
  by_cases h : cm.senders.length = 0
  · simp [h]
  · simp [h]

theorem register_eq (cm : ClientManager) (s : Bool) (now : Nat) :
    cm.register s now
      = (cm.next_id,
         { clients := setInsert cm.clients cm.next_id
           next_id := cm.next_id + 1
           senders := mapInsert cm.senders cm.next_id s
           last_pong := mapInsert cm.last_pong cm.next_id now }) := rfl

/-- The registry invariant: connected-set membership coincides with having a
senders entry, and every senders key also has a last-pong entry. -/
def RegInv (cm : ClientManager) : Prop :=
  (∀ id, id ∈ cm.clients ↔ keyMem cm.senders id = true)
  ∧ (∀ id, keyMem cm.senders id = true → keyMem cm.last_pong id = true)

theorem regInv_new : RegInv ClientManager.new := by
  constructor <;> intro id <;> simp [ClientManager.new, keyMem]

theorem regInv_register (cm : ClientManager) (s : Bool) (now : Nat)
    (h : RegInv cm) : RegInv (cm.register s now).2 := by
  obtain ⟨h1, h2⟩ := h
  rw [register_eq]
  constructor
  · intro a
    show a ∈ setInsert cm.clients cm.next_id
      ↔ keyMem (mapInsert cm.senders cm.next_id s) a = true
    rw [mem_setInsert, keyMem_mapInsert, h1 a]
  · intro a hm
    show keyMem (mapInsert cm.last_pong cm.next_id now) a = true
    rw [keyMem_mapInsert] at hm ⊢
    rcases hm with rfl | hm
    · exact Or.inl rfl
    · exact Or.inr (h2 a hm)

theorem regInv_unregister (cm : ClientManager) (id : ClientId)
    (h : RegInv cm) : RegInv (cm.unregister id) := by
  obtain ⟨h1, h2⟩ := h
  constructor
  · intro a
    show a ∈ setRemove cm.clients id
      ↔ keyMem (mapRemove cm.senders id) a = true
    rw [mem_setRemove, keyMem_mapRemove, h1 a]
  · intro a hm
    have hm2 : keyMem (mapRemove cm.senders id) a = true := hm
    show keyMem (mapRemove cm.last_pong id) a = true
    rw [keyMem_mapRemove] at hm2 ⊢
    exact ⟨h2 a hm2.1, hm2.2⟩

theorem regInv_broadcast (cm : ClientManager) (msg : String)
    (h : RegInv cm) : RegInv (cm.broadcast msg).2 := by
  obtain ⟨h1, h2⟩ := h
  rw [broadcast_eq]
  constructor
  · intro a
    show a ∈ (failedIds cm.senders).foldl setRemove cm.clients
      ↔ keyMem ((failedIds cm.senders).foldl mapRemove cm.senders) a = true
    rw [mem_foldl_setRemove, keyMem_foldl_mapRemove, h1 a]
  · intro a hm
    have hm2 : keyMem ((failedIds cm.senders).foldl mapRemove cm.senders) a
        = true := hm
    show keyMem cm.last_pong a = true
    rw [keyMem_foldl_mapRemove] at hm2
    exact h2 a hm2.1

theorem regInv_update_pong (cm : ClientManager) (id : ClientId) (now : Nat)
    (h : RegInv cm) : RegInv (cm.update_pong id now) := by
  obtain ⟨h1, h2⟩ := h
  constructor
  · intro a
    exact h1 a
  · intro a hm
    show keyMem (mapInsert cm.last_pong id now) a = true
    rw [keyMem_mapInsert]
    exact Or.inr (h2 a hm)

theorem regInv_send_ping (cm : ClientManager) (h : RegInv cm) :
    RegInv (cm.send_ping).2 := by
  rw [send_ping_state]
  exact h

theorem regInv_disconnect (cm : ClientManager) (ids : List ClientId)
    (h : RegInv cm) : RegInv (cm.disconnect_clients ids) := by
  obtain ⟨h1, h2⟩ := h
  rw [disconnect_clients_eq]
  constructor
  · intro a
    show a ∈ ids.foldl setRemove cm.clients
      ↔ keyMem (ids.foldl mapRemove cm.senders) a = true
    rw [mem_foldl_setRemove, keyMem_foldl_mapRemove, h1 a]
  · intro a hm
    have hm2 : keyMem (ids.foldl mapRemove cm.senders) a = true := hm
    show keyMem (ids.foldl mapRemove cm.last_pong) a = true
    rw [keyMem_foldl_mapRemove] at hm2 ⊢
    exact ⟨h2 a hm2.1, hm2.2⟩

theorem regInv_reachable (cm : ClientManager) (h : Reachable cm) : RegInv cm := by
  induction h with
  | init => exact regInv_new
  | register s now _ ih => exact regInv_register _ s now ih
  | unregister id _ ih => exact regInv_unregister _ id ih
  | broadcast msg _ ih => exact regInv_broadcast _ msg ih
  | update_pong id now _ ih => exact regInv_update_pong _ id now ih
  | send_ping _ ih => exact regInv_send_ping _ ih
  | evict timeout_secs now _ ih => exact regInv_disconnect _ _ ih

/-! Projection lemmas for the operation results. -/

theorem broadcast_result (cm : ClientManager) (msg : String) :
    (cm.broadcast msg).1
      = ((cm.senders.filter (fun p => p.2)).length, cm.senders.length) := by
  rw [broadcast_eq]

theorem broadcast_clients (cm : ClientManager) (msg : String) :
    ((cm.broadcast msg).2).clients
      = (failedIds cm.senders).foldl setRemove cm.clients := by
  rw [broadcast_eq]

theorem broadcast_senders (cm : ClientManager) (msg : String) :
    ((cm.broadcast msg).2).senders
      = (failedIds cm.senders).foldl mapRemove cm.senders := by
  rw [broadcast_eq]

theorem broadcast_last_pong (cm : ClientManager) (msg : String) :
    ((cm.broadcast msg).2).last_pong = cm.last_pong := by
  rw [broadcast_eq]

theorem disconnect_clients_clients (cm : ClientManager) (ids : List ClientId) :
    (cm.disconnect_clients ids).clients = ids.foldl setRemove cm.clients := by
  rw [disconnect_clients_eq]

theorem disconnect_clients_senders (cm : ClientManager) (ids : List ClientId) :
    (cm.disconnect_clients ids).senders = ids.foldl mapRemove cm.senders := by
  rw [disconnect_clients_eq]

theorem disconnect_clients_last_pong (cm : ClientManager) (ids : List ClientId) :
    (cm.disconnect_clients ids).last_pong = ids.foldl mapRemove cm.last_pong := by
  rw [disconnect_clients_eq]

/-- C1 (amended): on every reachable registry state a client id is in the
connected set iff it has both a senders entry and a last-pong entry;
`unregister` and timeout eviction remove an id from all three structures,
while the failed-send removal inside `broadcast` removes it from the connected
set and the senders map only, leaving `last_pong` entirely unchanged. -/
theorem c1_registry_membership (cm : ClientManager) (h : Reachable cm) :
    (∀ id, id ∈ cm.clients
        ↔ (keyMem cm.senders id = true ∧ keyMem cm.last_pong id = true))
    ∧ (∀ id, id ∉ (cm.unregister id).clients
        ∧ keyMem (cm.unregister id).senders id = false
        ∧ keyMem (cm.unregister id).last_pong id = false)
    ∧ (∀ ids id, id ∈ ids →
        id ∉ (cm.disconnect_clients ids).clients
        ∧ keyMem (cm.disconnect_clients ids).senders id = false
        ∧ keyMem (cm.disconnect_clients ids).last_pong id = false)
    ∧ (∀ msg id, mapLookup cm.senders id = some false →
        id ∉ ((cm.broadcast msg).2).clients
        ∧ keyMem ((cm.broadcast msg).2).senders id = false)
    ∧ (∀ msg, ((cm.broadcast msg).2).last_pong = cm.last_pong) := by
  obtain ⟨h1, h2⟩ := regInv_reachable cm h
  refine ⟨?_, ?_, ?_, ?_, ?_⟩
  · intro id
    constructor
    · intro hmem
      have hs := (h1 id).mp hmem
      exact ⟨hs, h2 id hs⟩
    · intro hsp
      exact (h1 id).mpr hsp.1
  · intro id
    refine ⟨?_, ?_, ?_⟩
    · intro hmem
      have hmem2 : id ∈ setRemove cm.clients id := hmem
      rw [mem_setRemove] at hmem2
      exact hmem2.2 rfl
    · show keyMem (mapRemove cm.senders id) id = false
      rw [keyMem_eq_isSome, mapLookup_mapRemove_self]
      rfl
    · show keyMem (mapRemove cm.last_pong id) id = false
      rw [keyMem_eq_isSome, mapLookup_mapRemove_self]
      rfl
  · intro ids id hin
    refine ⟨?_, ?_, ?_⟩
    · intro hmem
      rw [disconnect_clients_clients, mem_foldl_setRemove] at hmem
      exact hmem.2 hin
    · cases hks : keyMem (cm.disconnect_clients ids).senders id with
      | false => rfl
      | true =>
          rw [disconnect_clients_senders] at hks
          exact absurd hin (((keyMem_foldl_mapRemove ids cm.senders id).mp hks).2)
    · cases hks : keyMem (cm.disconnect_clients ids).last_pong id with
      | false => rfl
      | true =>
          rw [disconnect_clients_last_pong] at hks
          exact absurd hin (((keyMem_foldl_mapRemove ids cm.last_pong id).mp hks).2)
  · intro msg id hlk
    have hpair : (id, false) ∈ cm.senders := mapLookup_mem _ _ _ hlk
    have hfail : id ∈ failedIds cm.senders := by
      unfold failedIds
      exact List.mem_map_of_mem Prod.fst
        (List.mem_filter.mpr ⟨hpair, by simp⟩)
    refine ⟨?_, ?_⟩
    · intro hmem
      rw [broadcast_clients, mem_foldl_setRemove] at hmem
      exact hmem.2 hfail
    · cases hks : keyMem ((cm.broadcast msg).2).senders id with
      | false => rfl
      | true =>
          rw [broadcast_senders] at hks
          exact absurd hfail
            (((keyMem_foldl_mapRemove (failedIds cm.senders) cm.senders id).mp hks).2)
  · intro msg
    exact broadcast_last_pong cm msg

/-- C1 counterexample: register one client whose channel is dead and
broadcast once; the failed-send removal leaves the id out of the connected set
and the senders map but its `last_pong` entry is still present, so the removal
was not "from all three structures". -/
theorem c1_counterexample :
    0 ∉ (((ClientManager.new.register false 0).2.broadcast "x").2).clients
    ∧ keyMem (((ClientManager.new.register false 0).2.broadcast "x").2).senders 0
        = false
    ∧ keyMem (((ClientManager.new.register false 0).2.broadcast "x").2).last_pong 0
        = true := by
  decide

theorem c1_registry_membership_witness :
    Reachable (((ClientManager.new.register false 0).2.broadcast "x").2)
    ∧ (0 ∈ (((ClientManager.new.register false 0).2.broadcast "x").2).clients
        ↔ (keyMem (((ClientManager.new.register false 0).2.broadcast "x").2).senders 0
              = true
           ∧ keyMem (((ClientManager.new.register false 0).2.broadcast "x").2).last_pong 0
              = true)) :=
  ⟨Reachable.broadcast "x" (Reachable.register false 0 Reachable.init),
   (c1_registry_membership _
      (Reachable.broadcast "x" (Reachable.register false 0 Reachable.init))).1 0⟩

/-!
Claim C2.  `update_pong` is an unconditional `HashMap::insert`
(src/client_manager.rs line 114): on an identifier with no entry it creates a
fresh `last_pong` entry rather than being a no-op.
-/

/-- C2 counterexample: `update_pong` on the empty registry creates a
`last_pong` entry for the absent identifier 5, so the call is not a no-op. -/
theorem c2_counterexample :
    keyMem ClientManager.new.last_pong 5 = false
    ∧ keyMem (ClientManager.new.update_pong 5 100).last_pong 5 = true
    ∧ ClientManager.new.update_pong 5 100 ≠ ClientManager.new := by
  decide

/-- C2 (amended): `update_pong id` always writes the timestamp for `id` —
overwriting a present entry and creating one when `id` is absent — and leaves
the connected set, the senders map, the id counter and every other
identifier's timestamp unchanged. -/
theorem c2_update_pong_inserts (cm : ClientManager) (id : ClientId) (now : Nat) :
    (cm.update_pong id now).clients = cm.clients
    ∧ (cm.update_pong id now).senders = cm.senders
    ∧ (cm.update_pong id now).next_id = cm.next_id
    ∧ mapLookup (cm.update_pong id now).last_pong id = some now
    ∧ ∀ j, j ≠ id →
        mapLookup (cm.update_pong id now).last_pong j = mapLookup cm.last_pong j :=
  ⟨rfl, rfl, rfl, mapLookup_mapInsert_self _ _ _,
   fun j hj => mapLookup_mapInsert_ne _ _ _ _ hj⟩

theorem c2_update_pong_inserts_witness :
    (3 : ClientId) ≠ 5
    ∧ mapLookup ((ClientManager.new.update_pong 5 100).last_pong) 3
        = mapLookup ClientManager.new.last_pong 3 :=
  ⟨by decide, (c2_update_pong_inserts ClientManager.new 5 100).2.2.2.2 3 (by decide)⟩

/-!
Claim C3.  The scan compares `now.duration_since(last).as_secs() > timeout`,
and `as_secs` truncates to whole seconds: a client whose age exceeds the
threshold by less than one second is not collected, so inclusion is not
"elapsed time exceeds the threshold" but "elapsed whole seconds exceed the
threshold", i.e. the age is at least `(timeout_secs + 1)` full seconds.
-/

/-- C3 counterexample: a client whose last pong was 30500 ms ago with a 30 s
threshold — its elapsed time exceeds the threshold, yet the scan does not
include it, because the truncated whole-second age is 30, not more than 30. -/
theorem c3_counterexample :
    30 * 1000 < 30500 - 0
    ∧ mapLookup (ClientManager.new.register true 0).2.last_pong 0 = some 0
    ∧ (0 : ClientId) ∉ (ClientManager.new.register true 0).2.check_timeouts 30 30500 := by
  decide

/-- C3 (amended): a registered client is in the eviction batch exactly when
its age in truncated whole seconds exceeds the threshold, i.e. when at least
`(timeout_secs + 1) * 1000` milliseconds have elapsed since its last pong. -/
theorem c3_check_timeouts_truncated (cm : ClientManager)
    (timeout_secs now id : Nat) (h : keysNodup cm.last_pong) :
    id ∈ cm.check_timeouts timeout_secs now
      ↔ ∃ t, mapLookup cm.last_pong id = some t
          ∧ (timeout_secs + 1) * 1000 ≤ now - t := by
  rw [check_timeouts_eq]
  constructor
  · intro hm
    obtain ⟨p, hp, hpid⟩ := List.mem_map.mp hm
    obtain ⟨hpl, hcond⟩ := List.mem_filter.mp hp
    refine ⟨p.2, ?_, ?_⟩
    · rw [← hpid]
      exact (mem_iff_mapLookup_of_nodup cm.last_pong p.1 p.2 h).mp
        (by rw [Prod.mk.eta]; exact hpl)
    · simp only [decide_eq_true_eq, gt_iff_lt] at hcond
      have hdiv : timeout_secs + 1 ≤ (now - p.2) / 1000 := hcond
      exact (Nat.le_div_iff_mul_le (by norm_num)).mp hdiv
  · rintro ⟨t, hlk, hle⟩
    have hmem : (id, t) ∈ cm.last_pong :=
      (mem_iff_mapLookup_of_nodup cm.last_pong id t h).mpr hlk
    apply List.mem_map.mpr
    refine ⟨(id, t), List.mem_filter.mpr ⟨hmem, ?_⟩, rfl⟩
    simp only [decide_eq_true_eq, gt_iff_lt]
    exact (Nat.le_div_iff_mul_le (by norm_num)).mpr hle

theorem c3_check_timeouts_truncated_witness :
    keysNodup (ClientManager.new.register true 0).2.last_pong
    ∧ ((0 : ClientId) ∈ (ClientManager.new.register true 0).2.check_timeouts 30 31000
        ↔ ∃ t, mapLookup (ClientManager.new.register true 0).2.last_pong 0 = some t
            ∧ (30 + 1) * 1000 ≤ 31000 - t) :=
  ⟨by unfold keysNodup; decide,
   c3_check_timeouts_truncated _ 30 31000 0 (by unfold keysNodup; decide)⟩

/-! Claim C4: broadcast with exactly one failing channel. -/

theorem length_filter_not_bool {α : Type} (l : List α) (p : α → Bool) :
    (l.filter p).length + (l.filter (fun a => !p a)).length = l.length := by
  induction l with
  | nil => rfl
  | cons a rest ih =>
      cases hp : p a <;> simp [List.filter_cons, hp] <;> omega

/-- C4: when exactly one registered client (id `b`) has a failing channel,
`broadcast` returns `(N-1, N)` for `N` the number of senders, removes `b`
from the connected set and the senders map, and leaves every other client's
membership and sender entry exactly as before. -/
theorem c4_broadcast_single_failure (cm : ClientManager) (msg : String)
    (b : ClientId) (hf : failedIds cm.senders = [b]) :
    (cm.broadcast msg).1 = (cm.senders.length - 1, cm.senders.length)
    ∧ b ∉ ((cm.broadcast msg).2).clients
    ∧ keyMem ((cm.broadcast msg).2).senders b = false
    ∧ ∀ j, j ≠ b →
        ((j ∈ ((cm.broadcast msg).2).clients ↔ j ∈ cm.clients)
         ∧ keyMem ((cm.broadcast msg).2).senders j = keyMem cm.senders j) := by
  have hflen : (cm.senders.filter (fun p => !p.2)).length = 1 := by
    have := congrArg List.length hf
    simpa [failedIds] using this
  have hb : b ∈ failedIds cm.senders := by
    rw [hf]
    exact List.mem_singleton.mpr rfl
  refine ⟨?_, ?_, ?_, ?_⟩
  · rw [broadcast_result]
    have hsplit := length_filter_not_bool cm.senders (fun p => p.2)
    rw [hflen] at hsplit
    have : (cm.senders.filter (fun p => p.2)).length = cm.senders.length - 1 := by
      omega
    rw [this]
  · intro hmem
    rw [broadcast_clients, mem_foldl_setRemove] at hmem
    exact hmem.2 hb
  · cases hks : keyMem ((cm.broadcast msg).2).senders b with
    | false => rfl
    | true =>
        rw [broadcast_senders] at hks
        exact absurd hb
          (((keyMem_foldl_mapRemove (failedIds cm.senders) cm.senders b).mp hks).2)
  · intro j hj
    have hnot : j ∉ failedIds cm.senders := by
      rw [hf]
      simp [hj]
    constructor
    · rw [broadcast_clients, mem_foldl_setRemove]
      constructor
      · exact fun hh => hh.1
      · exact fun hh => ⟨hh, hnot⟩
    · rw [broadcast_senders]
      have hiff := keyMem_foldl_mapRemove (failedIds cm.senders) cm.senders j
      cases hks : keyMem cm.senders j with
      | true => exact hiff.mpr ⟨hks, hnot⟩
      | false =>
          cases hkf : keyMem ((failedIds cm.senders).foldl mapRemove cm.senders) j with
          | false => rfl
          | true =>
              have hcontra := (hiff.mp hkf).1
              rw [hks] at hcontra
              exact Bool.noConfusion hcontra

theorem c4_broadcast_single_failure_witness :
    failedIds
        ((((ClientManager.new.register true 0).2.register false 0).2.register true 0).2).senders
      = [1]
    ∧ (((((ClientManager.new.register true 0).2.register false 0).2.register true 0).2).broadcast "m").1
      = (((((ClientManager.new.register true 0).2.register false 0).2.register true 0).2).senders.length - 1,
         ((((ClientManager.new.register true 0).2.register false 0).2.register true 0).2).senders.length) :=
  ⟨by decide,
   (c4_broadcast_single_failure _ "m" 1 (by decide)).1⟩

/-! Claim C5: the outcome classification of the /execute handler. -/

theorem executeReply_classifies (filename : String) (d t : Nat) :
    recoverOutcome (executeReply filename d t) = outcomeClass d t
    ∧ ((executeReply filename d t).2 = 503
        ↔ outcomeClass d t = ExecOutcome.unavailable)
    ∧ ((executeReply filename d t).2 = 200
        ↔ outcomeClass d t = ExecOutcome.fullSuccess)
    ∧ ((executeReply filename d t).2 = 207
        ↔ (outcomeClass d t = ExecOutcome.partialDelivery
           ∨ outcomeClass d t = ExecOutcome.totalFailure)) := by
  unfold executeReply outcomeClass recoverOutcome
  by_cases h0 : t = 0
  · subst h0
    simp
  · by_cases hdt : d = t
    · subst hdt
      simp [h0]
    · by_cases hd : 0 < d
      · have hd0 : d ≠ 0 := Nat.pos_iff_ne_zero.mp hd
        simp [h0, hdt, hd, hd0]
      · have hd0 : d = 0 := by omega
        subst hd0
        simp [h0, hdt]

/-- C5: for every tally `(delivered, total)` returned by `broadcast`, the
`/execute` handler's reply determines exactly one of the four spec outcomes —
503 exactly for the no-clients case, 200 exactly for full success, and 207 for
both partial delivery and total failure, the two being distinguished by the
`clients_reached` field of the reply body (zero versus positive), as the
`recoverOutcome` reading of the reply shows. -/
theorem c5_execute_outcomes (cm : ClientManager) (msg filename : String) :
    recoverOutcome (executeReply filename (cm.broadcast msg).1.1 (cm.broadcast msg).1.2)
      = outcomeClass (cm.broadcast msg).1.1 (cm.broadcast msg).1.2
    ∧ ((executeReply filename (cm.broadcast msg).1.1 (cm.broadcast msg).1.2).2 = 503
        ↔ outcomeClass (cm.broadcast msg).1.1 (cm.broadcast msg).1.2
            = ExecOutcome.unavailable)
    ∧ ((executeReply filename (cm.broadcast msg).1.1 (cm.broadcast msg).1.2).2 = 200
        ↔ outcomeClass (cm.broadcast msg).1.1 (cm.broadcast msg).1.2
            = ExecOutcome.fullSuccess)
    ∧ ((executeReply filename (cm.broadcast msg).1.1 (cm.broadcast msg).1.2).2 = 207
        ↔ (outcomeClass (cm.broadcast msg).1.1 (cm.broadcast msg).1.2
              = ExecOutcome.partialDelivery
           ∨ outcomeClass (cm.broadcast msg).1.1 (cm.broadcast msg).1.2
              = ExecOutcome.totalFailure)) :=
  executeReply_classifies filename _ _

/-! Claim C6: broadcast on an empty registry. -/

/-- C6: with zero registered clients a broadcast returns `(0, 0)` and the
registry state — connected set, id counter, senders, last-pong map — is
returned unchanged. -/
theorem c6_broadcast_empty (cm : ClientManager) (msg : String)
    (_hc : cm.clients = []) (hs : cm.senders = []) :
    cm.broadcast msg = ((0, 0), cm) := by
  unfold ClientManager.broadcast
  rw [hs]
  simp

theorem c6_broadcast_empty_witness :
    ClientManager.new.clients = []
    ∧ ClientManager.new.senders = []
    ∧ ClientManager.new.broadcast "x" = ((0, 0), ClientManager.new) :=
  ⟨rfl, rfl, c6_broadcast_empty ClientManager.new "x" rfl rfl⟩

/-! Claim C7: the heartbeat probe never mutates the registry. -/

/-- C7: `send_ping` never removes a client — even when some sends fail, the
connected set, the senders map and the last-pong map after the call are the
ones from before it. -/
theorem c7_send_ping_no_removal (cm : ClientManager) :
    ((cm.send_ping).2).clients = cm.clients
    ∧ ((cm.send_ping).2).senders = cm.senders
    ∧ ((cm.send_ping).2).last_pong = cm.last_pong := by
  rw [send_ping_state]
  exact ⟨rfl, rfl, rfl⟩

/-! Claim C8: monotone identifier allocation across whole operation traces. -/

/-- C9: unregistering twice equals unregistering once; unregistering an
absent identifier returns the state unchanged; and `unregister id` does not
change any other identifier's membership, sender entry or timestamp. -/
theorem c9_unregister_idempotent (cm : ClientManager) (id : ClientId) :
    (cm.unregister id).unregister id = cm.unregister id
    ∧ (id ∉ cm.clients → keyMem cm.senders id = false →
        keyMem cm.last_pong id = false → cm.unregister id = cm)
    ∧ ∀ j, j ≠ id →
        ((j ∈ (cm.unregister id).clients ↔ j ∈ cm.clients)
         ∧ mapLookup (cm.unregister id).senders j = mapLookup cm.senders j
         ∧ mapLookup (cm.unregister id).last_pong j = mapLookup cm.last_pong j) := by
  refine ⟨?_, ?_, ?_⟩
  · obtain ⟨cs, ni, ss, lp⟩ := cm
    simp [ClientManager.unregister, setRemove, mapRemove, List.filter_filter]
  · intro hc hs hl
    obtain ⟨cs, ni, ss, lp⟩ := cm
    simp only [keyMem, List.any_eq_false, beq_iff_eq] at hs hl
    have h1 : setRemove cs id = cs := by
      apply List.filter_eq_self.mpr
      intro a ha
      simp only [decide_eq_true_eq]
      intro heq
      exact hc (heq ▸ ha)
    have h2 : mapRemove ss id = ss := by
      apply List.filter_eq_self.mpr
      intro p hp
      simp only [decide_eq_true_eq]
      exact hs p hp
    have h3 : mapRemove lp id = lp := by
      apply List.filter_eq_self.mpr
      intro p hp
      simp only [decide_eq_true_eq]
      exact hl p hp
    show ClientManager.mk (setRemove cs id) ni (mapRemove ss id) (mapRemove lp id)
      = ClientManager.mk cs ni ss lp
    rw [h1, h2, h3]
  · intro j hj
    refine ⟨?_, ?_, ?_⟩
    · show j ∈ setRemove cm.clients id ↔ j ∈ cm.clients
      rw [mem_setRemove]
      constructor
      · exact fun hh => hh.1
      · exact fun hh => ⟨hh, hj⟩
    · exact mapLookup_mapRemove_ne _ _ _ hj
    · exact mapLookup_mapRemove_ne _ _ _ hj

theorem c9_unregister_idempotent_witness :
    (ClientManager.new.register true 0).2.unregister 5
        = (ClientManager.new.register true 0).2
    ∧ (0 ∈ ((ClientManager.new.register true 0).2.unregister 5).clients
        ↔ 0 ∈ (ClientManager.new.register true 0).2.clients) :=
  ⟨(c9_unregister_idempotent (ClientManager.new.register true 0).2 5).2.1
      (by decide) (by decide) (by decide),
   ((c9_unregister_idempotent (ClientManager.new.register true 0).2 5).2.2 0
      (by decide)).1⟩

/-! Claim C10: the duplicated broadcast of the monolithic snapshot. -/

theorem mainSendAll_eq (l : List (ClientId × Bool)) :
    MainSnapshot.sendAll l
      = ((l.filter (fun p => p.2)).length,
         (l.filter (fun p => !p.2)).map Prod.fst) := by
  unfold MainSnapshot.sendAll
  rw [sendAll_go]
  simp

theorem mainBroadcast_eq (m : MainSnapshot.ClientManager) (msg : String) :
    m.broadcast msg
      = (((m.senders.filter (fun p => p.2)).length, m.senders.length),
         { m with
           clients := (failedIds m.senders).foldl setRemove m.clients
           senders := (failedIds m.senders).foldl mapRemove m.senders }) := by
  obtain ⟨cs, ni, ss⟩ := m
  unfold MainSnapshot.ClientManager.broadcast
  by_cases h0 : ss.length = 0
  · rw [List.length_eq_zero] at h0
    subst h0
    simp [failedIds]
  · simp only [if_neg h0, mainSendAll_eq, failedIds]
    by_cases hf : ((ss.filter (fun p => !p.2)).map Prod.fst).isEmpty
    · rw [List.isEmpty_iff] at hf
      simp [hf]
    · simp [hf]

/-- C10: started from the same connected set and the same senders map, the
broadcast of the monolithic snapshot (src/main.rs) and the broadcast of the
modular client manager (src/client_manager.rs) return the same
`(successful, total)` tally and leave identical connected sets and senders
maps. -/
theorem c10_broadcast_equivalent (cm : ClientManager)
    (m : MainSnapshot.ClientManager) (msg : String)
    (hc : m.clients = cm.clients) (hs : m.senders = cm.senders) :
    (m.broadcast msg).1 = (cm.broadcast msg).1
    ∧ ((m.broadcast msg).2).clients = ((cm.broadcast msg).2).clients
    ∧ ((m.broadcast msg).2).senders = ((cm.broadcast msg).2).senders := by
  rw [mainBroadcast_eq, broadcast_eq]
  refine ⟨?_, ?_, ?_⟩ <;> simp [hc, hs]

theorem c10_broadcast_equivalent_witness :
    (MainSnapshot.ClientManager.mk [0, 1] 2 [(0, true), (1, false)]).clients
        = (ClientManager.mk [0, 1] 2 [(0, true), (1, false)] [(0, 0), (1, 0)]).clients
    ∧ (MainSnapshot.ClientManager.mk [0, 1] 2 [(0, true), (1, false)]).senders
        = (ClientManager.mk [0, 1] 2 [(0, true), (1, false)] [(0, 0), (1, 0)]).senders
    ∧ ((MainSnapshot.ClientManager.mk [0, 1] 2 [(0, true), (1, false)]).broadcast "m").1
        = ((ClientManager.mk [0, 1] 2 [(0, true), (1, false)] [(0, 0), (1, 0)]).broadcast "m").1 :=
  ⟨rfl, rfl, (c10_broadcast_equivalent _ _ "m" rfl rfl).1⟩
